import Mathlib

/-!
Verification of the object-name virtualization subsystem and its EGL/GLES
boundary helpers.

The naming core (`NameSpace`, `ShareGroup`, `ObjectNameManager`) is declared
in the repository header `ObjectNameManager.h`; its implementation file is not
part of the reviewed sources, so those operations are modelled from the
specification's operational descriptions (each such definition carries a
`Modelled from the spec:` doc comment).  `EglDisplay` and `GLESpointer` are
translated directly from `EglDisplay.cpp` and `GLESpointer.cpp`.

C++ `std::map<unsigned int, T>` is embedded as an association list sorted in
strictly ascending key order (the iteration order of `std::map`), machine
`unsigned int` values as `Nat` (with explicit `% 2 ^ 32` where overflow is
observable), and null smart pointers as `none`.
-/

/-- Lookup in an association list keyed by `Nat` (models `std::map::find`). -/
def assocFind {α : Type} : List (Nat × α) → Nat → Option α
  | [], _ => none
  | p :: rest, k => if p.1 = k then some p.2 else assocFind rest k

/-- Sorted insert-or-assign (models `std::map::operator[] =`). -/
def assocInsert {α : Type} : List (Nat × α) → Nat → α → List (Nat × α)
  | [], k, v => [(k, v)]
  | p :: rest, k, v =>
    if k < p.1 then (k, v) :: p :: rest
    else if k = p.1 then (k, v) :: rest
    else p :: assocInsert rest k v

/-- Erase the entry with the given key, if present (models `std::map::erase`). -/
def assocErase {α : Type} : List (Nat × α) → Nat → List (Nat × α)
  | [], _ => []
  | p :: rest, k => if p.1 = k then rest else p :: assocErase rest k

/-- First key whose mapped value equals `g`, scanning in iteration order
(models the linear reverse scan of the local-to-global map). -/
def assocFindByVal : List (Nat × Nat) → Nat → Option Nat
  | [], _ => none
  | p :: rest, g => if p.2 = g then some p.1 else assocFindByVal rest g

/-- Number of entries whose key is at least `c` (probe-termination measure). -/
def keyCountGe (m : List (Nat × Nat)) (c : Nat) : Nat :=
  (m.filter (fun p => decide (c ≤ p.1))).length

/-- Modelled from the spec: the missing `NameSpace::genName` body probes
"upward from the internal counter until an unused value is found …, skipping
`0`".  `fuel` bounds the probe; `map.length + 1` candidates always contain a
free one. -/
def freshKey (m : List (Nat × Nat)) : Nat → Nat → Nat
  | 0, c => c
  | fuel + 1, c =>
    if c = 0 ∨ (assocFind m c).isSome then freshKey m fuel (c + 1) else c

/-- Modelled from the spec: global-name synthesis follows the "same non-zero,
unused-within-this-allocator policy", probing over mapped values. -/
def freshVal (m : List (Nat × Nat)) : Nat → Nat → Nat
  | 0, c => c
  | fuel + 1, c =>
    if c = 0 ∨ (assocFindByVal m c).isSome then freshVal m fuel (c + 1) else c

/-- The per-type local namespace allocator state (`NameSpace` in
`ObjectNameManager.h`): the advancing counter `m_nextName` and the
local-to-global map.  The `m_type` tag plays no role in the claims. -/
structure NameSpace where
  m_nextName : Nat
  m_localToGlobalMap : List (Nat × Nat)
  deriving DecidableEq, Repr

/-- Modelled from the spec: `NameSpace::genName(p_localName, genGlobal)` —
implementation absent from the sources.  A non-zero requested local name is
used verbatim; a zero request synthesizes the next unused non-zero local name
by probing upward from the counter; when `genGlobal` is set a fresh non-zero
global name is synthesized, otherwise the entry is inserted with global name
`0` "to be bound later via aliasing".  Returns the local name and the new
state; the counter advances to the generated name. -/
def NameSpace.genName (s : NameSpace) (p_localName : Nat := 0)
    (genGlobal : Bool := true) : Nat × NameSpace :=
  let localName :=
    if p_localName ≠ 0 then p_localName
    else freshKey s.m_localToGlobalMap (s.m_localToGlobalMap.length + 1)
      (s.m_nextName + 1)
  let globalName :=
    if genGlobal then
      freshVal s.m_localToGlobalMap (s.m_localToGlobalMap.length + 1) 1
    else 0
  (localName,
    { m_nextName := if p_localName ≠ 0 then s.m_nextName else localName
      m_localToGlobalMap :=
        assocInsert s.m_localToGlobalMap localName globalName })

/-- Modelled from the spec: `NameSpace::getGlobalName` — lookup, miss
returns `0`. -/
def NameSpace.getGlobalName (s : NameSpace) (p_localName : Nat) : Nat :=
  (assocFind s.m_localToGlobalMap p_localName).getD 0

/-- Modelled from the spec: `NameSpace::getLocalName` — linear reverse scan,
miss returns `0`. -/
def NameSpace.getLocalName (s : NameSpace) (p_globalName : Nat) : Nat :=
  (assocFindByVal s.m_localToGlobalMap p_globalName).getD 0

/-- Modelled from the spec: `NameSpace::deleteName` — removes the entry if
present, no-op if absent. -/
def NameSpace.deleteName (s : NameSpace) (p_localName : Nat) : NameSpace :=
  { s with m_localToGlobalMap := assocErase s.m_localToGlobalMap p_localName }

/-- Modelled from the spec: `NameSpace::isObject` — membership test. -/
def NameSpace.isObject (s : NameSpace) (p_localName : Nat) : Bool :=
  (assocFind s.m_localToGlobalMap p_localName).isSome

/-- Modelled from the spec: `NameSpace::replaceGlobalName` — force-rebinds an
existing local entry's global name to the supplied value; entries with other
local names are untouched. -/
def NameSpace.replaceGlobalName (s : NameSpace) (p_localName p_globalName : Nat) :
    NameSpace :=
  { s with
    m_localToGlobalMap := s.m_localToGlobalMap.map
      (fun p => if p.1 = p_localName then (p.1, p_globalName) else p) }

/-- Local names returned by `k` successive generate calls with no explicit
local name, starting from state `s`. -/
def NameSpace.genNames (s : NameSpace) : Nat → List Nat
  | 0 => []
  | k + 1 =>
    let r := s.genName 0 true
    r.1 :: r.2.genNames k

section AssocLemmas

theorem assocFind_insert_self {α : Type} (m : List (Nat × α)) (k : Nat) (v : α) :
    assocFind (assocInsert m k v) k = some v := by
  induction m with
  | nil => simp [assocInsert, assocFind]
  | cons p rest ih =>
    by_cases h1 : k < p.1
    · simp [assocInsert, assocFind, h1]
    · by_cases h2 : k = p.1
      · simp [assocInsert, assocFind, h1, h2]
      · have hne : p.1 ≠ k := fun h => h2 h.symm
        simp [assocInsert, assocFind, h1, h2, hne, ih]

theorem assocFind_insert_ne {α : Type} (m : List (Nat × α)) (k k2 : Nat) (v : α)
    (hne : k ≠ k2) : assocFind (assocInsert m k v) k2 = assocFind m k2 := by
  induction m with
  | nil => simp [assocInsert, assocFind, hne]
  | cons p rest ih =>
    by_cases h1 : k < p.1
    · simp [assocInsert, assocFind, h1, hne]
    · by_cases h2 : k = p.1
      · subst h2
        simp [assocInsert, assocFind, h1, hne]
      · simp [assocInsert, assocFind, h1, h2, ih]

theorem keyCountGe_le_length (m : List (Nat × Nat)) (c : Nat) :
    keyCountGe m c ≤ m.length :=
  List.length_filter_le _ m

theorem keyCountGe_mono (m : List (Nat × Nat)) (c : Nat) :
    keyCountGe m (c + 1) ≤ keyCountGe m c := by
  induction m with
  | nil => simp [keyCountGe]
  | cons p rest ih =>
    by_cases h1 : c + 1 ≤ p.1
    · have h0 : c ≤ p.1 := Nat.le_of_succ_le h1
      simpa [keyCountGe, List.filter, h1, h0] using Nat.succ_le_succ ih
    · by_cases h0 : c ≤ p.1
      · simpa [keyCountGe, List.filter, h1, h0] using Nat.le_succ_of_le ih
      · simpa [keyCountGe, List.filter, h1, h0] using ih

theorem keyCountGe_lt_of_mem (m : List (Nat × Nat)) (c : Nat)
    (h : (assocFind m c).isSome) : keyCountGe m (c + 1) < keyCountGe m c := by
  induction m with
  | nil => simp [assocFind] at h
  | cons p rest ih =>
    by_cases hp : p.1 = c
    · have h1 : ¬ (c + 1 ≤ p.1) := by omega
      have h0 : c ≤ p.1 := by omega
      have hm := keyCountGe_mono rest c
      have e1 : keyCountGe (p :: rest) (c + 1) = keyCountGe rest (c + 1) := by
        simp [keyCountGe, List.filter, h1]
      have e2 : keyCountGe (p :: rest) c = keyCountGe rest c + 1 := by
        simp [keyCountGe, List.filter, h0]
      omega
    · have h : (assocFind rest c).isSome := by
        simpa [assocFind, hp] using h
      have hlt := ih h
      by_cases h1 : c + 1 ≤ p.1
      · have h0 : c ≤ p.1 := Nat.le_of_succ_le h1
        simpa [keyCountGe, List.filter, h1, h0] using Nat.succ_lt_succ hlt
      · by_cases h0 : c ≤ p.1
        · simpa [keyCountGe, List.filter, h1, h0] using Nat.lt_succ_of_lt hlt
        · simpa [keyCountGe, List.filter, h1, h0] using hlt

theorem freshKey_spec (m : List (Nat × Nat)) :
    ∀ fuel c, 0 < c → keyCountGe m c < fuel →
      freshKey m fuel c ≠ 0 ∧ assocFind m (freshKey m fuel c) = none := by
  intro fuel
  induction fuel with
  | zero => intro c hc hf; omega
  | succ n ih =>
    intro c hc hf
    by_cases htaken : (assocFind m c).isSome
    · have hc0 : ¬ c = 0 := by omega
      have hstep := keyCountGe_lt_of_mem m c htaken
      have : keyCountGe m (c + 1) < n := by omega
      have := ih (c + 1) (by omega) this
      simpa [freshKey, hc0, htaken] using this
    · have hc0 : ¬ c = 0 := by omega
      have hnone : assocFind m c = none := by
        cases hx : assocFind m c with
        | none => rfl
        | some v => rw [hx] at htaken; simp at htaken
      refine ⟨?_, ?_⟩
      · simp [freshKey, hc0, htaken]
      · simpa [freshKey, hc0, htaken] using hnone

theorem freshKey_of_state (s : NameSpace) :
    freshKey s.m_localToGlobalMap (s.m_localToGlobalMap.length + 1)
        (s.m_nextName + 1) ≠ 0 ∧
      assocFind s.m_localToGlobalMap
        (freshKey s.m_localToGlobalMap (s.m_localToGlobalMap.length + 1)
          (s.m_nextName + 1)) = none :=
  freshKey_spec s.m_localToGlobalMap (s.m_localToGlobalMap.length + 1)
    (s.m_nextName + 1) (Nat.succ_pos _)
    (Nat.lt_succ_of_le (keyCountGe_le_length _ _))

theorem freshVal_pos (m : List (Nat × Nat)) :
    ∀ fuel c, 0 < c → 0 < freshVal m fuel c := by
  intro fuel
  induction fuel with
  | zero => intro c hc; simpa [freshVal] using hc
  | succ n ih =>
    intro c hc
    by_cases h : c = 0 ∨ (assocFindByVal m c).isSome
    · simpa [freshVal, h] using ih (c + 1) (by omega)
    · simpa [freshVal, h] using hc

end AssocLemmas

section GenNameLemmas

theorem genName_zero_eq (s : NameSpace) (g : Bool) :
    s.genName 0 g =
      (freshKey s.m_localToGlobalMap (s.m_localToGlobalMap.length + 1)
          (s.m_nextName + 1),
        { m_nextName :=
            freshKey s.m_localToGlobalMap (s.m_localToGlobalMap.length + 1)
              (s.m_nextName + 1)
          m_localToGlobalMap :=
            assocInsert s.m_localToGlobalMap
              (freshKey s.m_localToGlobalMap (s.m_localToGlobalMap.length + 1)
                (s.m_nextName + 1))
              (if g then
                freshVal s.m_localToGlobalMap (s.m_localToGlobalMap.length + 1) 1
              else 0) }) := by
  simp [NameSpace.genName]

theorem genName_zero_fst_ne_zero (s : NameSpace) (g : Bool) :
    (s.genName 0 g).1 ≠ 0 := by
  rw [genName_zero_eq]
  exact (freshKey_of_state s).1

theorem genName_zero_fst_not_key (s : NameSpace) (g : Bool) :
    assocFind s.m_localToGlobalMap (s.genName 0 g).1 = none := by
  rw [genName_zero_eq]
  exact (freshKey_of_state s).2

theorem assocInsert_isSome_mono {α : Type} (m : List (Nat × α)) (k x : Nat)
    (v : α) (h : (assocFind m x).isSome) :
    (assocFind (assocInsert m k v) x).isSome := by
  by_cases hx : k = x
  · subst hx
    simp [assocFind_insert_self]
  · rw [assocFind_insert_ne m k x v hx]
    exact h

theorem genName_map_eq (s : NameSpace) (p : Nat) (g : Bool) :
    (s.genName p g).2.m_localToGlobalMap =
      assocInsert s.m_localToGlobalMap (s.genName p g).1
        (if g then
          freshVal s.m_localToGlobalMap (s.m_localToGlobalMap.length + 1) 1
        else 0) := by
  simp [NameSpace.genName]

theorem genName_isSome_mono (s : NameSpace) (p : Nat) (g : Bool) (x : Nat)
    (h : (assocFind s.m_localToGlobalMap x).isSome) :
    (assocFind (s.genName p g).2.m_localToGlobalMap x).isSome := by
  rw [genName_map_eq]
  exact assocInsert_isSome_mono _ _ _ _ h

theorem genName_fst_key_after (s : NameSpace) (p : Nat) (g : Bool) :
    (assocFind (s.genName p g).2.m_localToGlobalMap (s.genName p g).1).isSome := by
  rw [genName_map_eq]
  simp [assocFind_insert_self]

theorem genNames_not_key (s : NameSpace) (k : Nat) :
    ∀ x ∈ s.genNames k, assocFind s.m_localToGlobalMap x = none := by
  induction k generalizing s with
  | zero => simp [NameSpace.genNames]
  | succ n ih =>
    intro x hx
    simp only [NameSpace.genNames, List.mem_cons] at hx
    rcases hx with hx | hx
    · subst hx
      exact genName_zero_fst_not_key s true
    · have h2 := ih (s.genName 0 true).2 x hx
      cases hfind : assocFind s.m_localToGlobalMap x with
      | none => rfl
      | some v =>
        have : (assocFind s.m_localToGlobalMap x).isSome := by
          simp [hfind]
        have := genName_isSome_mono s 0 true x this
        rw [h2] at this
        simp at this

theorem genNames_nodup (s : NameSpace) (k : Nat) : (s.genNames k).Nodup := by
  induction k generalizing s with
  | zero => simp [NameSpace.genNames]
  | succ n ih =>
    simp only [NameSpace.genNames, List.nodup_cons]
    refine ⟨?_, ih _⟩
    intro hmem
    have h2 := genNames_not_key (s.genName 0 true).2 n _ hmem
    have h3 := genName_fst_key_after s 0 true
    rw [h2] at h3
    simp at h3

theorem genNames_ne_zero (s : NameSpace) (k : Nat) :
    ∀ x ∈ s.genNames k, x ≠ 0 := by
  induction k generalizing s with
  | zero => simp [NameSpace.genNames]
  | succ n ih =>
    intro x hx
    simp only [NameSpace.genNames, List.mem_cons] at hx
    rcases hx with hx | hx
    · subst hx
      exact genName_zero_fst_ne_zero s true
    · exact ih _ x hx

end GenNameLemmas

/-- Claim C1: a freshly generated name is never `0`, a freshly generated name
is never a name still present in the mapping at the time of the call, and the
local names returned by any sequence of generate calls with no explicit local
name are pairwise distinct within one allocator. -/
theorem genName_nonzero_and_pairwise_distinct (s : NameSpace) (k : Nat) :
    (s.genName 0 true).1 ≠ 0 ∧
      assocFind s.m_localToGlobalMap (s.genName 0 true).1 = none ∧
      (s.genNames k).Nodup ∧
      ∀ n, n ∈ s.genNames k → n ≠ 0 :=
  ⟨genName_zero_fst_ne_zero s true, genName_zero_fst_not_key s true,
    genNames_nodup s k, fun n hn => genNames_ne_zero s k n hn⟩

/-- Witness for C1 at a concrete allocator state: from `m_nextName = 5` and
mapping `{2 ↦ 9}`, three generate calls return `[6, 7, 8]`. -/
theorem genName_nonzero_and_pairwise_distinct_witness :
    ((⟨5, [(2, 9)]⟩ : NameSpace).genName 0 true).1 ≠ 0 ∧
      ((⟨5, [(2, 9)]⟩ : NameSpace).genNames 3).Nodup ∧
      (6 : Nat) ∈ (⟨5, [(2, 9)]⟩ : NameSpace).genNames 3 ∧ (6 : Nat) ≠ 0 :=
  ⟨(genName_nonzero_and_pairwise_distinct ⟨5, [(2, 9)]⟩ 3).1,
    (genName_nonzero_and_pairwise_distinct ⟨5, [(2, 9)]⟩ 3).2.2.1,
    by decide,
    (genName_nonzero_and_pairwise_distinct ⟨5, [(2, 9)]⟩ 3).2.2.2 6 (by decide)⟩

/-- Representation invariant of the `std::map` embedding: keys strictly
ascending in iteration order (hence unique). -/
def mapWF {α : Type} (m : List (Nat × α)) : Prop :=
  List.Pairwise (fun p q => p.1 < q.1) m

instance {α : Type} (m : List (Nat × α)) : Decidable (mapWF m) :=
  List.instDecidablePairwise m

section EraseLemmas

theorem assocFind_eq_none_of_forall {α : Type} (m : List (Nat × α)) (k : Nat)
    (h : ∀ p ∈ m, p.1 ≠ k) : assocFind m k = none := by
  induction m with
  | nil => rfl
  | cons p rest ih =>
    have hp := h p (by simp)
    simp only [assocFind, if_neg hp]
    exact ih (fun q hq => h q (by simp [hq]))

theorem assocFind_isSome_mem {α : Type} (m : List (Nat × α)) (k : Nat)
    (h : (assocFind m k).isSome) : ∃ v, (k, v) ∈ m := by
  induction m with
  | nil => simp [assocFind] at h
  | cons p rest ih =>
    by_cases hp : p.1 = k
    · exact ⟨p.2, by simp [← hp]⟩
    · simp only [assocFind, if_neg hp] at h
      obtain ⟨v, hv⟩ := ih h
      exact ⟨v, by simp [hv]⟩

theorem assocFindByVal_eq_none (m : List (Nat × Nat)) (g : Nat)
    (h : ∀ p ∈ m, p.2 ≠ g) : assocFindByVal m g = none := by
  induction m with
  | nil => rfl
  | cons p rest ih =>
    have hp := h p (by simp)
    simp only [assocFindByVal, if_neg hp]
    exact ih (fun q hq => h q (by simp [hq]))

theorem assocErase_find_self {α : Type} (m : List (Nat × α)) (k : Nat)
    (hwf : mapWF m) : assocFind (assocErase m k) k = none := by
  induction m with
  | nil => rfl
  | cons p rest ih =>
    rw [mapWF, List.pairwise_cons] at hwf
    by_cases hp : p.1 = k
    · simp only [assocErase, if_pos hp]
      refine assocFind_eq_none_of_forall rest k (fun q hq => ?_)
      have := hwf.1 q hq
      omega
    · simp only [assocErase, if_neg hp, assocFind, if_neg hp]
      exact ih hwf.2

theorem assocErase_of_not_mem {α : Type} (m : List (Nat × α)) (k : Nat)
    (h : assocFind m k = none) : assocErase m k = m := by
  induction m with
  | nil => rfl
  | cons p rest ih =>
    by_cases hp : p.1 = k
    · simp [assocFind, hp] at h
    · simp only [assocFind, if_neg hp] at h
      simp [assocErase, hp, ih h]

end EraseLemmas

/-- Claim C6: after `deleteName L`, `isObject L` is `false` and
`getGlobalName L` is `0`, whether or not `L` was present; deleting an absent
name leaves the allocator state unchanged. -/
theorem deleteName_removes_and_absent_noop (s : NameSpace) (L : Nat)
    (hwf : mapWF s.m_localToGlobalMap) :
    (s.deleteName L).isObject L = false ∧
      (s.deleteName L).getGlobalName L = 0 ∧
      (s.isObject L = false → s.deleteName L = s) := by
  have hnone : assocFind (s.deleteName L).m_localToGlobalMap L = none :=
    assocErase_find_self s.m_localToGlobalMap L hwf
  refine ⟨?_, ?_, ?_⟩
  · simp [NameSpace.isObject, hnone]
  · simp [NameSpace.getGlobalName, hnone]
  · intro habs
    have : assocFind s.m_localToGlobalMap L = none := by
      simp only [NameSpace.isObject] at habs
      cases hx : assocFind s.m_localToGlobalMap L with
      | none => rfl
      | some v => rw [hx] at habs; simp at habs
    cases s with
    | mk n m => simp [NameSpace.deleteName, assocErase_of_not_mem m L this]

/-- Witness for C6 at a concrete state: deleting the present name `1` removes
it, and deleting the absent name `2` is a no-op. -/
theorem deleteName_removes_and_absent_noop_witness :
    mapWF ([(1, 5)] : List (Nat × Nat)) ∧
      ((⟨3, [(1, 5)]⟩ : NameSpace).deleteName 1).isObject 1 = false ∧
      ((⟨3, [(1, 5)]⟩ : NameSpace).deleteName 1).getGlobalName 1 = 0 ∧
      (⟨3, [(1, 5)]⟩ : NameSpace).isObject 2 = false ∧
      (⟨3, [(1, 5)]⟩ : NameSpace).deleteName 2 = ⟨3, [(1, 5)]⟩ :=
  ⟨by decide,
    (deleteName_removes_and_absent_noop ⟨3, [(1, 5)]⟩ 1 (by decide)).1,
    (deleteName_removes_and_absent_noop ⟨3, [(1, 5)]⟩ 1 (by decide)).2.1,
    by decide,
    (deleteName_removes_and_absent_noop ⟨3, [(1, 5)]⟩ 2 (by decide)).2.2
      (by decide)⟩

/-- Counterexample to C5 as stated: an entry created by generate with
`genGlobal = false` (the spec's "insert with global name `0` (to be bound
later via aliasing)") exists in the mapping yet resolves to `0`, so `0` is
returned as the resolution of an existing entry. -/
theorem lookup_sentinel_cex :
    ((NameSpace.genName ⟨0, []⟩ 5 false).2.isObject 5 = true) ∧
      ((NameSpace.genName ⟨0, []⟩ 5 false).2.getGlobalName 5 = 0) := by
  decide

theorem assocFind_some_getD (m : List (Nat × Nat)) (k g : Nat)
    (h : assocFind m k = some g) : (assocFind m k).getD 0 = g := by
  rw [h]
  rfl

/-- Claim C5 (amended): a `getGlobalName` miss returns `0`; a `getLocalName`
miss (no entry has global value `G`) returns `0`; an existing entry resolves
to exactly its stored global name, so `0` is returned for an existing entry
only when the stored global is `0` — entries created by generate with global
generation always store and resolve to a non-zero global name. -/
theorem lookup_sentinel_amended (s : NameSpace) (L G : Nat) :
    (s.isObject L = false → s.getGlobalName L = 0) ∧
      ((∀ p ∈ s.m_localToGlobalMap, p.2 ≠ G) → s.getLocalName G = 0) ∧
      (∀ g, assocFind s.m_localToGlobalMap L = some g → s.getGlobalName L = g) ∧
      (s.genName L true).2.getGlobalName (s.genName L true).1 ≠ 0 := by
  refine ⟨?_, ?_, ?_, ?_⟩
  · intro habs
    have hnone : assocFind s.m_localToGlobalMap L = none := by
      simp only [NameSpace.isObject] at habs
      cases hx : assocFind s.m_localToGlobalMap L with
      | none => rfl
      | some v => rw [hx] at habs; simp at habs
    simp [NameSpace.getGlobalName, hnone]
  · intro hall
    simp [NameSpace.getLocalName, assocFindByVal_eq_none s.m_localToGlobalMap G hall]
  · intro g hg
    simp only [NameSpace.getGlobalName]
    exact assocFind_some_getD _ _ _ hg
  · have hmap := genName_map_eq s L true
    have hself := assocFind_insert_self s.m_localToGlobalMap (s.genName L true).1
      (freshVal s.m_localToGlobalMap (s.m_localToGlobalMap.length + 1) 1)
    simp only [if_pos rfl] at hmap
    have hval : assocFind (s.genName L true).2.m_localToGlobalMap
        (s.genName L true).1 =
        some (freshVal s.m_localToGlobalMap (s.m_localToGlobalMap.length + 1) 1) := by
      rw [hmap]
      simpa using hself
    have hpos := freshVal_pos s.m_localToGlobalMap
      (s.m_localToGlobalMap.length + 1) 1 (by omega)
    simp [NameSpace.getGlobalName, hval]
    omega

/-- Witness for C5 (amended) at concrete states: a missing local name `4` and
missing global value `9` both resolve to `0`, the present entry `3 ↦ 7`
resolves to its stored global `7`, and a generate call with global generation
yields a non-zero resolution. -/
theorem lookup_sentinel_amended_witness :
    (⟨0, [(3, 7)]⟩ : NameSpace).isObject 4 = false ∧
      (⟨0, [(3, 7)]⟩ : NameSpace).getGlobalName 4 = 0 ∧
      (⟨0, [(3, 7)]⟩ : NameSpace).getLocalName 9 = 0 ∧
      (⟨0, [(3, 7)]⟩ : NameSpace).getGlobalName 3 = 7 ∧
      ((⟨0, [(3, 7)]⟩ : NameSpace).genName 5 true).2.getGlobalName
        ((⟨0, [(3, 7)]⟩ : NameSpace).genName 5 true).1 ≠ 0 :=
  ⟨by decide,
    (lookup_sentinel_amended ⟨0, [(3, 7)]⟩ 4 9).1 (by decide),
    (lookup_sentinel_amended ⟨0, [(3, 7)]⟩ 4 9).2.1 (by decide),
    (lookup_sentinel_amended ⟨0, [(3, 7)]⟩ 3 9).2.2.1 7 (by decide),
    (lookup_sentinel_amended ⟨0, [(3, 7)]⟩ 5 9).2.2.2⟩

/-- Counterexample to C4 as stated: in state `{1 ↦ 5, 2 ↦ 7}` the call
`replaceGlobalName 2 5` makes `getGlobalName 2 = 5`, but the reverse scan
`getLocalName 5` returns the smaller aliasing local name `1`, not `2`. -/
theorem replaceGlobalName_cex :
    (⟨2, [(1, 5), (2, 7)]⟩ : NameSpace).isObject 2 = true ∧
      mapWF ([(1, 5), (2, 7)] : List (Nat × Nat)) ∧
      ((⟨2, [(1, 5), (2, 7)]⟩ : NameSpace).replaceGlobalName 2 5).getGlobalName 2
        = 5 ∧
      ((⟨2, [(1, 5), (2, 7)]⟩ : NameSpace).replaceGlobalName 2 5).getLocalName 5
        = 1 ∧
      ((⟨2, [(1, 5), (2, 7)]⟩ : NameSpace).replaceGlobalName 2 5).getLocalName 5
        ≠ 2 := by
  decide

section ReplaceLemmas

theorem assocFind_replace_self (m : List (Nat × Nat)) (L G : Nat)
    (h : (assocFind m L).isSome) :
    assocFind (m.map (fun p => if p.1 = L then (p.1, G) else p)) L = some G := by
  induction m with
  | nil => simp [assocFind] at h
  | cons p rest ih =>
    by_cases hp : p.1 = L
    · simp [assocFind, hp]
    · simp only [List.map_cons, if_neg hp]
      simp only [assocFind, if_neg hp] at h ⊢
      exact ih h

theorem assocFindByVal_replace (m : List (Nat × Nat)) (L G : Nat)
    (hwf : mapWF m) (hmem : (assocFind m L).isSome)
    (hmin : ∀ p ∈ m, p.2 = G → L ≤ p.1) :
    assocFindByVal (m.map (fun p => if p.1 = L then (p.1, G) else p)) G
      = some L := by
  induction m with
  | nil => simp [assocFind] at hmem
  | cons p rest ih =>
    rw [mapWF, List.pairwise_cons] at hwf
    by_cases hp : p.1 = L
    · simp [assocFindByVal, hp]
    · have hLrest : (assocFind rest L).isSome := by
        simpa [assocFind, hp] using hmem
      obtain ⟨v, hv⟩ := assocFind_isSome_mem rest L hLrest
      have hlt : p.1 < L := hwf.1 (L, v) hv
      have hpg : p.2 ≠ G := by
        intro hg
        have := hmin p (by simp) hg
        omega
      simp only [List.map_cons, if_neg hp, assocFindByVal, if_neg hpg]
      exact ih hwf.2 hLrest (fun q hq => hmin q (by simp [hq]))

theorem assocFind_replace_frame (m : List (Nat × Nat)) (L G x : Nat)
    (hx : x ≠ L) :
    assocFind (m.map (fun p => if p.1 = L then (p.1, G) else p)) x
      = assocFind m x := by
  induction m with
  | nil => rfl
  | cons p rest ih =>
    have hLx : L ≠ x := fun h => hx h.symm
    by_cases hp : p.1 = L
    · simp [assocFind, hp, hLx, ih]
    · by_cases hpx : p.1 = x
      · simp [assocFind, hp, hpx, hx, hLx]
      · simp [assocFind, hp, hpx, ih]

end ReplaceLemmas

/-- Claim C4 (amended): for a state containing local name `L`,
`replaceGlobalName L G` makes `getGlobalName L` return `G` and leaves every
other entry's resolution unchanged; `getLocalName G` returns `L` provided no
entry with a smaller local name maps to `G` (the reverse scan returns the
first match in ascending key order, so with a smaller aliasing local name it
returns that name instead — see the counterexample). -/
theorem replaceGlobalName_amended (s : NameSpace) (L G : Nat)
    (hwf : mapWF s.m_localToGlobalMap)
    (hL : s.isObject L = true)
    (hmin : ∀ p ∈ s.m_localToGlobalMap, p.2 = G → L ≤ p.1) :
    (s.replaceGlobalName L G).getGlobalName L = G ∧
      (s.replaceGlobalName L G).getLocalName G = L ∧
      ∀ x, x ≠ L →
        (s.replaceGlobalName L G).getGlobalName x = s.getGlobalName x := by
  have hmem : (assocFind s.m_localToGlobalMap L).isSome := by
    simpa [NameSpace.isObject] using hL
  refine ⟨?_, ?_, ?_⟩
  · simp [NameSpace.replaceGlobalName, NameSpace.getGlobalName,
      assocFind_replace_self _ _ G hmem]
  · simp [NameSpace.replaceGlobalName, NameSpace.getLocalName,
      assocFindByVal_replace _ _ G hwf hmem hmin]
  · intro x hx
    simp [NameSpace.replaceGlobalName, NameSpace.getGlobalName,
      assocFind_replace_frame _ L G x hx]

/-- Witness for C4 (amended) at a concrete state: in `{1 ↦ 4, 2 ↦ 6}`,
aliasing `1` to the already-used global `6` rebinds entry `1`, the reverse
scan finds `1`, and entry `2` still resolves to `6`. -/
theorem replaceGlobalName_amended_witness :
    mapWF ([(1, 4), (2, 6)] : List (Nat × Nat)) ∧
      (⟨9, [(1, 4), (2, 6)]⟩ : NameSpace).isObject 1 = true ∧
      ((⟨9, [(1, 4), (2, 6)]⟩ : NameSpace).replaceGlobalName 1 6).getGlobalName 1
        = 6 ∧
      ((⟨9, [(1, 4), (2, 6)]⟩ : NameSpace).replaceGlobalName 1 6).getLocalName 6
        = 1 ∧
      ((⟨9, [(1, 4), (2, 6)]⟩ : NameSpace).replaceGlobalName 1 6).getGlobalName 2
        = (⟨9, [(1, 4), (2, 6)]⟩ : NameSpace).getGlobalName 2 :=
  ⟨by decide, by decide,
    (replaceGlobalName_amended ⟨9, [(1, 4), (2, 6)]⟩ 1 6 (by decide) (by decide)
      (by decide)).1,
    (replaceGlobalName_amended ⟨9, [(1, 4), (2, 6)]⟩ 1 6 (by decide) (by decide)
      (by decide)).2.1,
    (replaceGlobalName_amended ⟨9, [(1, 4), (2, 6)]⟩ 1 6 (by decide) (by decide)
      (by decide)).2.2 2 (by decide)⟩

theorem assocFind_mem {α : Type} (m : List (Nat × α)) (k : Nat) (v : α)
    (h : assocFind m k = some v) : (k, v) ∈ m := by
  induction m with
  | nil => simp [assocFind] at h
  | cons p rest ih =>
    obtain ⟨a, b⟩ := p
    by_cases hp : a = k
    · subst hp
      simp [assocFind] at h
      subst h
      simp
    · simp [assocFind, hp] at h
      exact List.mem_cons_of_mem _ (ih h)

theorem assocFind_filter_ne {α : Type} (m : List (Nat × α)) (K1 K2 : Nat)
    (hne : K1 ≠ K2) :
    assocFind (m.filter (fun p => decide (p.1 ≠ K1))) K2 = assocFind m K2 := by
  induction m with
  | nil => rfl
  | cons p rest ih =>
    by_cases hp : p.1 = K1
    · have hpK2 : p.1 ≠ K2 := by rw [hp]; exact hne
      have hcond : decide (p.1 ≠ K1) = false := by simp [hp]
      rw [List.filter_cons, hcond]
      simp only [Bool.false_eq_true, if_false]
      rw [ih]
      simp [assocFind, hpK2]
    · have hcond : decide (p.1 ≠ K1) = true := by simp [hp]
      rw [List.filter_cons, hcond]
      simp only [if_true]
      by_cases hx : p.1 = K2
      · simp [assocFind, hx]
      · simp only [assocFind, if_neg hx]
        exact ih

/-- The process-wide Group Registry (`ObjectNameManager` in the header):
`m_groups` is the multi-valued key-to-group table.  Opaque `void *` keys and
`ShareGroup` object identities are both embedded as `Nat`; a `ShareGroupPtr`
handle is `Option Nat`, with `none` for the null handle. -/
structure ObjectNameManager where
  m_groups : List (Nat × Nat)
  deriving DecidableEq, Repr

/-- Modelled from the spec: `ObjectNameManager::getShareGroup` — table lookup,
empty handle on a miss. -/
def ObjectNameManager.getShareGroup (m : ObjectNameManager) (p_groupName : Nat) :
    Option Nat :=
  assocFind m.m_groups p_groupName

/-- Modelled from the spec: `ObjectNameManager::attachShareGroup` — look up
the group of `p_existingGroupName`; if absent fail with an empty handle and
leave the table untouched; otherwise insert `(p_groupName, same group)` and
return the shared handle. -/
def ObjectNameManager.attachShareGroup (m : ObjectNameManager)
    (p_groupName p_existingGroupName : Nat) : Option Nat × ObjectNameManager :=
  match assocFind m.m_groups p_existingGroupName with
  | none => (none, m)
  | some gid => (some gid, ⟨(p_groupName, gid) :: m.m_groups⟩)

/-- Modelled from the spec: `ObjectNameManager::deleteShareGroup` — removes
the entries attached to the key (the group object itself is destroyed only by
the reference count, see `groupAlive`). -/
def ObjectNameManager.deleteShareGroup (m : ObjectNameManager) (p_groupName : Nat) :
    ObjectNameManager :=
  ⟨m.m_groups.filter (fun p => decide (p.1 ≠ p_groupName))⟩

/-- Modelled from the spec: a registry configuration plus the number of
outstanding external `ShareGroupPtr` handles per group — the two kinds of
owning references of the spec's reference-counting discipline. -/
structure RegistryState where
  manager : ObjectNameManager
  extHandles : Nat → Nat

/-- Number of registry entries referencing group `g`. -/
def keyRefs (m : ObjectNameManager) (g : Nat) : Nat :=
  (m.m_groups.filter (fun p => decide (p.2 = g))).length

/-- Modelled from the spec: total owning references of a group — registry
entries plus external handles; the group object lives iff this is positive. -/
def groupAlive (st : RegistryState) (g : Nat) : Bool :=
  decide (0 < keyRefs st.manager g + st.extHandles g)

/-- Deletion of a registry key lifted to the reference-counted state. -/
def RegistryState.deleteShareGroup (st : RegistryState) (k : Nat) : RegistryState :=
  { st with manager := st.manager.deleteShareGroup k }

/-- Claim C2: when `existingKey` is not bound, `attachShareGroup` returns the
empty handle and leaves the key-to-group table exactly as it was — no entry
for `newKey`, no group. -/
theorem attachShareGroup_unknown_key_notfound (m : ObjectNameManager)
    (newKey existingKey : Nat) (h : m.getShareGroup existingKey = none) :
    (m.attachShareGroup newKey existingKey).1 = none ∧
      (m.attachShareGroup newKey existingKey).2 = m := by
  rw [ObjectNameManager.getShareGroup] at h
  simp [ObjectNameManager.attachShareGroup, h]

/-- Witness for C2 at a concrete registry: key `5` is unknown, so attaching
`2` to it fails and the table is unchanged. -/
theorem attachShareGroup_unknown_key_notfound_witness :
    (⟨[(1, 10)]⟩ : ObjectNameManager).getShareGroup 5 = none ∧
      ((⟨[(1, 10)]⟩ : ObjectNameManager).attachShareGroup 2 5).1 = none ∧
      ((⟨[(1, 10)]⟩ : ObjectNameManager).attachShareGroup 2 5).2 = ⟨[(1, 10)]⟩ :=
  ⟨by decide,
    (attachShareGroup_unknown_key_notfound ⟨[(1, 10)]⟩ 2 5 (by decide)).1,
    (attachShareGroup_unknown_key_notfound ⟨[(1, 10)]⟩ 2 5 (by decide)).2⟩

/-- Claim C3: with `K1 ≠ K2` both aliasing group `g`, deleting `K1` keeps `g`
reachable via `K2` and keeps the group object alive; and a group is dead only
when no registry key maps to it and every external handle is released. -/
theorem deleteShareGroup_aliasing_keeps_group (st : RegistryState)
    (K1 K2 g : Nat) (hne : K1 ≠ K2)
    (h2 : st.manager.getShareGroup K2 = some g) :
    (st.deleteShareGroup K1).manager.getShareGroup K2 = some g ∧
      groupAlive (st.deleteShareGroup K1) g = true ∧
      ∀ st2 : RegistryState, groupAlive st2 g = false →
        (∀ k, st2.manager.getShareGroup k ≠ some g) ∧ st2.extHandles g = 0 := by
  have hfind : (st.deleteShareGroup K1).manager.getShareGroup K2 = some g := by
    rw [ObjectNameManager.getShareGroup] at h2 ⊢
    rw [RegistryState.deleteShareGroup, ObjectNameManager.deleteShareGroup]
    rw [assocFind_filter_ne _ K1 K2 hne]
    exact h2
  refine ⟨hfind, ?_, ?_⟩
  · have hmem := assocFind_mem _ _ _ hfind
    have hmem2 : (K2, g) ∈
        (st.deleteShareGroup K1).manager.m_groups.filter
          (fun p => decide (p.2 = g)) :=
      List.mem_filter.mpr ⟨hmem, by simp⟩
    have hpos : 0 < keyRefs (st.deleteShareGroup K1).manager g := by
      rw [keyRefs]
      exact List.length_pos_of_mem hmem2
    rw [groupAlive]
    simp only [decide_eq_true_eq]
    omega
  · intro st2 hdead
    rw [groupAlive] at hdead
    simp only [decide_eq_false_iff_not] at hdead
    have hz : keyRefs st2.manager g = 0 ∧ st2.extHandles g = 0 := by omega
    refine ⟨?_, hz.2⟩
    intro k hk
    have hmem := assocFind_mem _ _ _ hk
    have hmem2 : (k, g) ∈ st2.manager.m_groups.filter
        (fun p => decide (p.2 = g)) :=
      List.mem_filter.mpr ⟨hmem, by simp⟩
    have := List.length_pos_of_mem hmem2
    rw [keyRefs] at hz
    omega

/-- Witness for C3 at a concrete state: keys `1` and `2` both alias group `7`
with no external handles; deleting key `1` keeps the group reachable via key
`2` and alive, and in the emptied registry the group is dead with no keys and
no handles. -/
theorem deleteShareGroup_aliasing_keeps_group_witness :
    ((⟨⟨[(1, 7), (2, 7)]⟩, fun _ => 0⟩ : RegistryState).manager.getShareGroup 2
        = some 7) ∧
      ((⟨⟨[(1, 7), (2, 7)]⟩, fun _ => 0⟩ :
          RegistryState).deleteShareGroup 1).manager.getShareGroup 2 = some 7 ∧
      groupAlive
        ((⟨⟨[(1, 7), (2, 7)]⟩, fun _ => 0⟩ : RegistryState).deleteShareGroup 1) 7
        = true ∧
      (⟨⟨[]⟩, fun _ => 0⟩ : RegistryState).manager.getShareGroup 3 ≠ some 7 ∧
      (⟨⟨[]⟩, fun _ => 0⟩ : RegistryState).extHandles 7 = 0 :=
  ⟨by decide,
    (deleteShareGroup_aliasing_keeps_group ⟨⟨[(1, 7), (2, 7)]⟩, fun _ => 0⟩ 1 2 7
      (by decide) (by decide)).1,
    (deleteShareGroup_aliasing_keeps_group ⟨⟨[(1, 7), (2, 7)]⟩, fun _ => 0⟩ 1 2 7
      (by decide) (by decide)).2.1,
    ((deleteShareGroup_aliasing_keeps_group ⟨⟨[(1, 7), (2, 7)]⟩, fun _ => 0⟩ 1 2 7
      (by decide) (by decide)).2.2 ⟨⟨[]⟩, fun _ => 0⟩ (by decide)).1 3,
    ((deleteShareGroup_aliasing_keeps_group ⟨⟨[(1, 7), (2, 7)]⟩, fun _ => 0⟩ 1 2 7
      (by decide) (by decide)).2.2 ⟨⟨[]⟩, fun _ => 0⟩ (by decide)).2⟩

/-- The closed resource-type enumeration `NamedObjectType` from
`ObjectNameManager.h`. -/
inductive NamedObjectType where
  | VERTEXBUFFER
  | TEXTURE
  | RENDERBUFFER
  | FRAMEBUFFER
  | SHADER
  | PROGRAM
  deriving DecidableEq, Repr

/-- The per-context-group aggregation `ShareGroup`: one `NameSpace` per
resource type (the fixed array `m_nameSpace[NUM_OBJECT_TYPES]`).  The single
`m_lock` serializes every public call; in this embedding each call is
therefore one atomic state transition. -/
structure ShareGroup where
  m_nameSpace : NamedObjectType → NameSpace

/-- Modelled from the spec: `ShareGroup::genName(p_type, p_localName)` —
delegates to the allocator of `p_type`, always requesting global-name
generation, with the whole call serialized by the group lock. -/
def ShareGroup.genName (g : ShareGroup) (p_type : NamedObjectType)
    (p_localName : Nat := 0) : Nat × ShareGroup :=
  let r := (g.m_nameSpace p_type).genName p_localName true
  (r.1, ⟨fun t => if t = p_type then r.2 else g.m_nameSpace t⟩)

/-- Interleaved execution of two threads generating names on one shared
group: each schedule entry says which thread performs the next serialized
`genName` call for type `t`; the returned local names are collected in call
order. -/
def ShareGroup.runSched (g : ShareGroup) (t : NamedObjectType) :
    List Bool → List Nat
  | [] => []
  | _ :: rest =>
    let r := g.genName t 0
    r.1 :: r.2.runSched t rest

theorem runSched_eq_genNames (g : ShareGroup) (t : NamedObjectType)
    (sched : List Bool) :
    g.runSched t sched = (g.m_nameSpace t).genNames sched.length := by
  induction sched generalizing g with
  | nil => simp [ShareGroup.runSched, NameSpace.genNames]
  | cons b rest ih =>
    simp only [ShareGroup.runSched, NameSpace.genNames, List.length_cons]
    rw [ih]
    simp [ShareGroup.genName]

theorem count_true_add_count_false (l : List Bool) :
    l.count true + l.count false = l.length := by
  induction l with
  | nil => rfl
  | cons b rest ih =>
    cases b <;> simp [List.count_cons] <;> omega

theorem genNames_length (s : NameSpace) (k : Nat) : (s.genNames k).length = k := by
  induction k generalizing s with
  | zero => rfl
  | succ n ih => simp [NameSpace.genNames, ih]

/-- Claim C7: two threads issuing 1000 serialized `genName` calls each on the
same group and type — under any interleaving of the 2000 lock-protected calls
— obtain exactly 2000 pairwise-distinct non-zero local names, with no
duplicates and no lost entries. -/
theorem concurrent_genName_all_distinct (g : ShareGroup) (t : NamedObjectType)
    (sched : List Bool) (h1 : sched.count true = 1000)
    (h0 : sched.count false = 1000) :
    (g.runSched t sched).length = 2000 ∧
      (g.runSched t sched).Nodup ∧
      ∀ n ∈ g.runSched t sched, n ≠ 0 := by
  have hlen : sched.length = 2000 := by
    have := count_true_add_count_false sched
    omega
  rw [runSched_eq_genNames, hlen]
  exact ⟨genNames_length _ 2000, genNames_nodup _ 2000, genNames_ne_zero _ 2000⟩

/-- Witness for C7 at a concrete schedule: thread one's 1000 calls followed
by thread two's 1000 calls, on a fresh group. -/
theorem concurrent_genName_all_distinct_witness :
    ((List.replicate 1000 true ++ List.replicate 1000 false).count true
        = 1000) ∧
      ((List.replicate 1000 true ++ List.replicate 1000 false).count false
        = 1000) ∧
      ((⟨fun _ => ⟨0, []⟩⟩ : ShareGroup).runSched NamedObjectType.TEXTURE
          (List.replicate 1000 true ++ List.replicate 1000 false)).length
        = 2000 ∧
      ((⟨fun _ => ⟨0, []⟩⟩ : ShareGroup).runSched NamedObjectType.TEXTURE
          (List.replicate 1000 true ++ List.replicate 1000 false)).Nodup := by
  have hc1 : (List.replicate 1000 true ++ List.replicate 1000 false).count true
      = 1000 := by
    rw [List.count_append, List.count_replicate_self, List.count_replicate]
    norm_num
  have hc0 : (List.replicate 1000 true ++ List.replicate 1000 false).count false
      = 1000 := by
    rw [List.count_append, List.count_replicate, List.count_replicate_self]
    norm_num
  refine ⟨hc1, hc0, ?_, ?_⟩
  · exact (concurrent_genName_all_distinct ⟨fun _ => ⟨0, []⟩⟩
      NamedObjectType.TEXTURE
      (List.replicate 1000 true ++ List.replicate 1000 false) hc1 hc0).1
  · exact (concurrent_genName_all_distinct ⟨fun _ => ⟨0, []⟩⟩
      NamedObjectType.TEXTURE
      (List.replicate 1000 true ++ List.replicate 1000 false) hc1 hc0).2.1

/-- An EGL image object: `imageId` is the field stamped by
`EglDisplay::addImageKHR`; the rest of the object is opaque payload. -/
structure EglImage where
  imageId : Nat
  payload : Nat
  deriving DecidableEq, Repr

/-- The `EglDisplay` state the claims concern (from `EglDisplay.cpp`): the
handle-to-object maps `m_surfaces`, `m_contexts`, `m_eglImages` and the
`unsigned int` counter `m_nextEglImageId`.  Handles are the
`reinterpret_cast` integer values; surface and context objects are opaque
(`Nat`); a null `SurfacePtr` / `ContextPtr` / `ImagePtr` is `none`. -/
structure EglDisplay where
  m_surfaces : List (Nat × Nat)
  m_contexts : List (Nat × Nat)
  m_eglImages : List (Nat × EglImage)
  m_nextEglImageId : Nat
  deriving DecidableEq, Repr

/-- `EglDisplay::getSurface`: `m_surfaces.find`, returning `SurfacePtr(NULL)`
on a miss. -/
def EglDisplay.getSurface (d : EglDisplay) (surface : Nat) : Option Nat :=
  assocFind d.m_surfaces surface

/-- `EglDisplay::getContext`: `m_contexts.find`, returning `ContextPtr(NULL)`
on a miss. -/
def EglDisplay.getContext (d : EglDisplay) (ctx : Nat) : Option Nat :=
  assocFind d.m_contexts ctx

/-- `EglDisplay::getImage`: `m_eglImages.find`, returning `ImagePtr(NULL)` on
a miss. -/
def EglDisplay.getImage (d : EglDisplay) (img : Nat) : Option EglImage :=
  assocFind d.m_eglImages img

/-- The `do { ++m_nextEglImageId; } while(m_nextEglImageId == 0);` loop of
`addImageKHR` on an `unsigned int` counter: one increment mod `2 ^ 32`,
repeated once more when it wrapped to `0` (after which the counter is `1`,
so the loop exits). -/
def nextImageId (c : Nat) : Nat :=
  if (c + 1) % 2 ^ 32 = 0 then ((c + 1) % 2 ^ 32 + 1) % 2 ^ 32
  else (c + 1) % 2 ^ 32

/-- `EglDisplay::addImageKHR`: advance the id counter skipping `0`, stamp
`img->imageId` with it, insert the image under it, return it as the handle. -/
def EglDisplay.addImageKHR (d : EglDisplay) (img : EglImage) : Nat × EglDisplay :=
  let newId := nextImageId d.m_nextEglImageId
  (newId,
    { d with
      m_nextEglImageId := newId
      m_eglImages :=
        assocInsert d.m_eglImages newId { img with imageId := newId } })

/-- Claim C8: every lookup-by-handle at the display boundary surfaces a miss
as the null-handle sentinel — for any map state and any handle bound by no
entry, `getSurface`, `getContext` and `getImage` return the null pointer. -/
theorem display_lookup_miss_returns_null (d : EglDisplay) (h : Nat) :
    ((∀ p ∈ d.m_surfaces, p.1 ≠ h) → d.getSurface h = none) ∧
      ((∀ p ∈ d.m_contexts, p.1 ≠ h) → d.getContext h = none) ∧
      ((∀ p ∈ d.m_eglImages, p.1 ≠ h) → d.getImage h = none) :=
  ⟨fun hall => assocFind_eq_none_of_forall _ _ hall,
    fun hall => assocFind_eq_none_of_forall _ _ hall,
    fun hall => assocFind_eq_none_of_forall _ _ hall⟩

/-- Witness for C8 at a concrete display state: handle `7` is bound in none
of the three maps and all three getters return the null handle. -/
theorem display_lookup_miss_returns_null_witness :
    (∀ p ∈ ([(1, 10)] : List (Nat × Nat)), p.1 ≠ 7) ∧
      (∀ p ∈ ([(2, 20)] : List (Nat × Nat)), p.1 ≠ 7) ∧
      (∀ p ∈ ([(3, ⟨3, 30⟩)] : List (Nat × EglImage)), p.1 ≠ 7) ∧
      (⟨[(1, 10)], [(2, 20)], [(3, ⟨3, 30⟩)], 3⟩ : EglDisplay).getSurface 7
        = none ∧
      (⟨[(1, 10)], [(2, 20)], [(3, ⟨3, 30⟩)], 3⟩ : EglDisplay).getContext 7
        = none ∧
      (⟨[(1, 10)], [(2, 20)], [(3, ⟨3, 30⟩)], 3⟩ : EglDisplay).getImage 7
        = none :=
  ⟨by decide, by decide, by decide,
    (display_lookup_miss_returns_null
      ⟨[(1, 10)], [(2, 20)], [(3, ⟨3, 30⟩)], 3⟩ 7).1 (by decide),
    (display_lookup_miss_returns_null
      ⟨[(1, 10)], [(2, 20)], [(3, ⟨3, 30⟩)], 3⟩ 7).2.1 (by decide),
    (display_lookup_miss_returns_null
      ⟨[(1, 10)], [(2, 20)], [(3, ⟨3, 30⟩)], 3⟩ 7).2.2 (by decide)⟩

theorem nextImageId_ne_zero (c : Nat) : nextImageId c ≠ 0 := by
  rw [nextImageId]
  by_cases h : (c + 1) % 2 ^ 32 = 0
  · rw [if_pos h, h]
    norm_num
  · rw [if_neg h]
    exact h

/-- Claim C9: `addImageKHR` always returns a non-zero handle — for every
prior counter value the increment loop skips `0` (including at the
`2 ^ 32 - 1` wraparound, where the handle becomes `1`), the updated counter
and the stored `imageId` equal the returned handle, and the image is inserted
under that non-zero id. -/
theorem addImageKHR_nonzero_handle (d : EglDisplay) (img : EglImage) :
    (d.addImageKHR img).1 ≠ 0 ∧
      (d.addImageKHR img).2.m_nextEglImageId = (d.addImageKHR img).1 ∧
      (d.addImageKHR img).2.getImage (d.addImageKHR img).1
        = some { img with imageId := (d.addImageKHR img).1 } ∧
      nextImageId (2 ^ 32 - 1) = 1 := by
  refine ⟨?_, ?_, ?_, ?_⟩
  · exact nextImageId_ne_zero d.m_nextEglImageId
  · rfl
  · simp only [EglDisplay.addImageKHR, EglDisplay.getImage]
    exact assocFind_insert_self _ _ _
  · rw [nextImageId]
    norm_num

/-- The vertex-attribute pointer state from `GLESpointer.h` /
`GLESpointer.cpp`: `m_data` is the client-array source (`const GLvoid*`),
`m_buffer` the bound `GLESbuffer*`; null pointers are `none`, non-null
pointers opaque `Nat` addresses. -/
structure GLESpointer where
  m_size : Int
  m_type : Nat
  m_stride : Int
  m_enabled : Bool
  m_data : Option Nat
  m_buffer : Option Nat
  m_buffOffset : Nat
  deriving DecidableEq, Repr

/-- `GLESpointer::GLESpointer()`: all fields zero / false / null. -/
def GLESpointer.initState : GLESpointer :=
  ⟨0, 0, 0, false, none, none, 0⟩

/-- `GLESpointer::setArray`: store the array source and null the buffer
(`m_buffer = NULL`); `m_buffOffset` is left untouched. -/
def GLESpointer.setArray (p : GLESpointer) (size : Int) (ty : Nat)
    (stride : Int) (data : Option Nat) : GLESpointer :=
  { p with
    m_size := size
    m_type := ty
    m_stride := stride
    m_data := data
    m_buffer := none }

/-- `GLESpointer::setBuffer`: store the buffer source and offset and null the
array data (`m_data = NULL`). -/
def GLESpointer.setBuffer (p : GLESpointer) (size : Int) (ty : Nat)
    (stride : Int) (buf : Option Nat) (offset : Nat) : GLESpointer :=
  { p with
    m_size := size
    m_type := ty
    m_stride := stride
    m_data := none
    m_buffer := buf
    m_buffOffset := offset }

/-- One source-mutating call on a `GLESpointer`. -/
inductive PtrOp where
  | array (size : Int) (ty : Nat) (stride : Int) (data : Option Nat)
  | buffer (size : Int) (ty : Nat) (stride : Int) (buf : Option Nat) (off : Nat)
  deriving DecidableEq, Repr

/-- Apply one `setArray` / `setBuffer` call. -/
def applyPtrOp (p : GLESpointer) : PtrOp → GLESpointer
  | .array size ty stride data => p.setArray size ty stride data
  | .buffer size ty stride buf off => p.setBuffer size ty stride buf off

theorem applyPtrOp_single_source (p : GLESpointer) (op : PtrOp) :
    (applyPtrOp p op).m_data = none ∨ (applyPtrOp p op).m_buffer = none := by
  cases op with
  | array size ty stride data =>
    right
    rfl
  | buffer size ty stride buf off =>
    left
    rfl

theorem foldl_ptrOp_single_source (ops : List PtrOp) (p : GLESpointer)
    (h : p.m_data = none ∨ p.m_buffer = none) :
    (ops.foldl applyPtrOp p).m_data = none ∨
      (ops.foldl applyPtrOp p).m_buffer = none := by
  induction ops generalizing p with
  | nil => exact h
  | cons op rest ih => exact ih _ (applyPtrOp_single_source p op)

/-- Claim C10: a `GLESpointer` never holds both an array-data source and a
buffer source — the default-constructed state has both null, and after any
sequence of `setArray` / `setBuffer` calls at most one of `m_data` and
`m_buffer` is non-null. -/
theorem glespointer_single_source (ops : List PtrOp) :
    GLESpointer.initState.m_data = none ∧
      GLESpointer.initState.m_buffer = none ∧
      ((ops.foldl applyPtrOp GLESpointer.initState).m_data = none ∨
        (ops.foldl applyPtrOp GLESpointer.initState).m_buffer = none) :=
  ⟨rfl, rfl, foldl_ptrOp_single_source ops GLESpointer.initState (Or.inl rfl)⟩
